import Mathlib

/- Verification of the data-transformation core of stripPlots.js: the
Cleaner (cleanData), the Point Builder (getPointsData), the color
palette, and the sort step of makeStripPlot.  JavaScript values are
modeled by an inductive value domain (strings, numbers with NaN and the
infinities, undefined); numbers are exact rationals (IEEE rounding is
not modeled; no verified property depends on rounding).  JavaScript
objects are insertion-ordered association lists.  Math.log on positive
finite arguments is represented by a parameter jlog threaded through the
definitions, so every theorem holds for every choice of jlog, in
particular for the correctly rounded IEEE logarithm. -/

namespace StripPlots

/-- Model of a JavaScript number: NaN, the infinities, or a finite value
modeled as an exact rational. -/
inductive JNum where
  | nan : JNum
  | neginf : JNum
  | posinf : JNum
  | fin : ℚ → JNum
  deriving DecidableEq

instance : Inhabited JNum := ⟨JNum.nan⟩

/-- Model of a JavaScript cell value: a string, a number, or undefined. -/
inductive JVal where
  | str : String → JVal
  | num : JNum → JVal
  | undefined : JVal
  deriving DecidableEq

instance : Inhabited JVal := ⟨JVal.undefined⟩

/-- IEEE-style negation. -/
def jneg : JNum → JNum
  | .nan => .nan
  | .neginf => .posinf
  | .posinf => .neginf
  | .fin q => .fin (-q)

/-- IEEE-style addition: NaN propagates and opposite infinities give NaN. -/
def jadd : JNum → JNum → JNum
  | .nan, _ => .nan
  | _, .nan => .nan
  | .posinf, .neginf => .nan
  | .neginf, .posinf => .nan
  | .posinf, _ => .posinf
  | .neginf, _ => .neginf
  | .fin _, .posinf => .posinf
  | .fin _, .neginf => .neginf
  | .fin a, .fin b => .fin (a + b)

/-- IEEE-style subtraction. -/
def jsub (a b : JNum) : JNum := jadd a (jneg b)

/-- IEEE-style multiplication: NaN propagates and infinity times zero is NaN. -/
def jmul : JNum → JNum → JNum
  | .nan, _ => .nan
  | _, .nan => .nan
  | .posinf, .posinf => .posinf
  | .posinf, .neginf => .neginf
  | .neginf, .posinf => .neginf
  | .neginf, .neginf => .posinf
  | .posinf, .fin q => if q = 0 then .nan else if 0 < q then .posinf else .neginf
  | .neginf, .fin q => if q = 0 then .nan else if 0 < q then .neginf else .posinf
  | .fin q, .posinf => if q = 0 then .nan else if 0 < q then .posinf else .neginf
  | .fin q, .neginf => if q = 0 then .nan else if 0 < q then .neginf else .posinf
  | .fin a, .fin b => .fin (a * b)

/-- The strict greater-than test on JavaScript numbers: false whenever
NaN is involved. -/
def jnumGt : JNum → JNum → Bool
  | .nan, _ => false
  | _, .nan => false
  | .posinf, .posinf => false
  | .posinf, _ => true
  | .neginf, _ => false
  | .fin _, .posinf => false
  | .fin _, .neginf => true
  | .fin a, .fin b => decide (b < a)

/-- A total linear order on JNum modeling the ascending order of numeric
sorting inside d3.quantile.  NaN is placed at the bottom, which is
irrelevant because NaN is filtered out before any sorting happens. -/
def jnumLe : JNum → JNum → Bool
  | .nan, _ => true
  | _, .nan => false
  | .neginf, _ => true
  | _, .neginf => false
  | .posinf, .posinf => true
  | .fin _, .posinf => true
  | .posinf, .fin _ => false
  | .fin a, .fin b => decide (a ≤ b)

/-- JavaScript strict equality on numbers: NaN is unequal to everything,
including itself. -/
def jnumSeq : JNum → JNum → Bool
  | .nan, _ => false
  | _, .nan => false
  | .posinf, .posinf => true
  | .neginf, .neginf => true
  | .fin a, .fin b => decide (a = b)
  | _, _ => false

/-- Finiteness test on the number domain. -/
def JNum.isFin : JNum → Bool
  | .fin _ => true
  | _ => false

/-- JavaScript strict equality on the value domain. -/
def jvalSeq : JVal → JVal → Bool
  | .str a, .str b => decide (a = b)
  | .num a, .num b => jnumSeq a b
  | .undefined, .undefined => true
  | _, _ => false

/-- Value of a decimal digit character. -/
def digitVal (c : Char) : Option Nat :=
  if c.isDigit then some (c.toNat - 48) else none

/-- Decimal reading of a non-empty list of digit characters. -/
def digitsToNat : List Char → Option Nat
  | [] => none
  | cs => cs.foldl (fun acc c =>
      match acc, digitVal c with
      | some n, some d => some (n * 10 + d)
      | _, _ => none) (some 0)

/-- Model of JavaScript ToNumber on strings, simplified to an optional
sign followed by decimal digits with an optional fractional part; the
empty string converts to 0 and anything unparsable to NaN.  (The full
grammar also accepts whitespace, exponents and hex literals, which no
claim exercises.) -/
def parseJsNumber (s : String) : JNum :=
  match s.data with
  | [] => .fin 0
  | c :: cs =>
      let sb : ℚ × List Char :=
        if c = '-' then (-1, cs) else if c = '+' then (1, cs) else (1, c :: cs)
      let ip := sb.2.takeWhile (fun d => decide (d ≠ '.'))
      let rest := sb.2.dropWhile (fun d => decide (d ≠ '.'))
      match rest with
      | [] =>
          match digitsToNat ip with
          | some n => .fin (sb.1 * n)
          | none => .nan
      | _ :: fp =>
          match digitsToNat ip, digitsToNat fp with
          | some n, some f => .fin (sb.1 * ((n : ℚ) + (f : ℚ) / ((10 : ℚ) ^ fp.length)))
          | _, _ => .nan

/-- JavaScript ToNumber on the value domain (undefined converts to NaN). -/
def jToNumber : JVal → JNum
  | .num x => x
  | .undefined => .nan
  | .str s => parseJsNumber s

/-- Model of JavaScript number-to-string conversion, simplified: integers
print as decimal integers and other rationals as num/den fractions,
where real JS prints decimal expansions of doubles.  No claim depends on
the formatting of a numeric cell. -/
def jnumToString : JNum → String
  | .nan => "NaN"
  | .neginf => "-Infinity"
  | .posinf => "Infinity"
  | .fin q => if q.den = 1 then toString q.num else toString q.num ++ "/" ++ toString q.den

/-- Model of JavaScript string conversion of a value, as used by template
literals and property-key coercion. -/
def jToString : JVal → String
  | .str s => s
  | .num x => jnumToString x
  | .undefined => "undefined"

/-- Model of Math.log.  The special cases follow IEEE semantics: NaN for
NaN, negative and non-numeric arguments, negative infinity at zero,
positive infinity at positive infinity; on a positive finite argument
the result is the abstract logarithm jlog. -/
def mathLog (jlog : ℚ → ℚ) (v : JVal) : JNum :=
  match jToNumber v with
  | .nan => .nan
  | .neginf => .nan
  | .posinf => .posinf
  | .fin q => if q < 0 then .nan else if q = 0 then .neginf else .fin (jlog q)

/-- Contiguous-sublist test used to model String.prototype.includes. -/
def listIsInfixB (needle : List Char) : List Char → Bool
  | [] => needle.isEmpty
  | c :: rest => needle.isPrefixOf (c :: rest) || listIsInfixB needle rest

/-- Model of String.prototype.includes. -/
def jsIncludes (s sub : String) : Bool := listIsInfixB sub.data s.data

/-- Worker for jsSplit: cuts at leftmost-first non-overlapping
occurrences of the separator.  The extra fuel argument (always at least
the length of the remaining text, so the first case is never reached
from jsSplit) keeps the recursion structural. -/
def jsSplitAux (sep : List Char) : List Char → List Char → Nat → List (List Char)
  | cur, l, 0 => [cur.reverse ++ l]
  | cur, [], _ + 1 => [cur.reverse]
  | cur, c :: rest, fuel + 1 =>
      if sep.isPrefixOf (c :: rest) then
        cur.reverse :: jsSplitAux sep [] (rest.drop (sep.length - 1)) fuel
      else
        jsSplitAux sep (c :: cur) rest fuel

/-- Model of String.prototype.split with a non-empty string separator. -/
def jsSplit (s sep : String) : List String :=
  (jsSplitAux sep.data [] s.data s.data.length).map (fun cs => String.mk cs)

/-- Model of String.prototype.startsWith. -/
def strStarts (pre s : String) : Bool := pre.data.isPrefixOf s.data

/-- Strip one trailing underscore, as the endsWith test plus
slice(0, length - 1) in getPointsData does. -/
def stripTrailingUnderscore (s : String) : String :=
  match s.data.getLast? with
  | some c => if c = '_' then String.mk s.data.dropLast else s
  | none => s

/-- A JavaScript object is modeled as an insertion-ordered association
list; objects originating from spreadsheet rows have pairwise-distinct
keys (rowWF below). -/
abbrev Row := List (String × JVal)

/-- Property read: the value at the key, undefined when absent. -/
def rowGet (r : Row) (k : String) : JVal :=
  match r with
  | [] => .undefined
  | e :: es => if e.1 = k then e.2 else rowGet es k

/-- Property write: an existing key keeps its position, a new key is
appended at the end, following JS object insertion order. -/
def rowSet (r : Row) (k : String) (v : JVal) : Row :=
  match r with
  | [] => [(k, v)]
  | e :: es => if e.1 = k then (k, v) :: es else e :: rowSet es k v

/-- Model of the delete operator: the property with the given key is
removed. -/
def rowDelete (r : Row) (k : String) : Row :=
  match r with
  | [] => []
  | e :: es => if e.1 = k then es else e :: rowDelete es k

/-- The column names of a row, in insertion order. -/
def rowKeys (r : Row) : List String := r.map Prod.fst

/-- Well-formedness of a row as a JS object: pairwise-distinct keys. -/
def rowWF (r : Row) : Prop := (rowKeys r).Nodup

instance (r : Row) : Decidable (rowWF r) := by
  unfold rowWF
  infer_instance

def colFeatureId : String := "Feature ID"
def colChemName : String := "Chemical Name"
def colIonMode : String := "Ionization Mode"
def colRetTime : String := "Retention Time"
def colMedian : String := "Median Log RF"
def rfPre : String := "RF "
def logPre : String := "log "
def logRfPre : String := "log RF "
def esiPlusTag : String := "(ESI+)"
def esiMinusTag : String := "(ESI-)"
def modePlus : String := "+"
def modeMinus : String := "-"
def modeBoth : String := "both"
def sortKeyRt : String := "rt"
def openParenSp : String := " ("
def closeParen : String := ")"

/-- The keep-list of cleanData. -/
def columnsToKeep : List String := [colFeatureId, colChemName, colIonMode, colRetTime]

/-- The logRFValues accumulator: chemical-identity key to the list of log
values pushed for it, in insertion order. -/
abbrev LogDict := List (String × List JVal)

/-- Dictionary lookup (undefined when the key is absent). -/
def dictFind (d : LogDict) (k : String) : Option (List JVal) :=
  match d with
  | [] => none
  | e :: es => if e.1 = k then some e.2 else dictFind es k

/-- logRFValues[key].push(v), creating the entry first when absent. -/
def dictPush (d : LogDict) (k : String) (v : JVal) : LogDict :=
  match d with
  | [] => [(k, [v])]
  | e :: es => if e.1 = k then (e.1, e.2 ++ [v]) :: es else e :: dictPush es k v

/-- One step of the first pass of cleanData for one column entry of the
snapshot taken by Object.entries: drop junk columns, rewrite the chemical
name to embed the ionization mode, and replace an RF column by its log
column while pushing the log value into the per-chemical accumulator. -/
def cleanColStep (jlog : ℚ → ℚ) (acc : Row × LogDict) (e : String × JVal) : Row × LogDict :=
  let colName := e.1
  if !strStarts rfPre colName && !(columnsToKeep.contains colName) then
    (rowDelete acc.1 colName, acc.2)
  else
    let r :=
      if colName = colChemName then
        rowSet acc.1 colName (.str (jToString (rowGet acc.1 colChemName) ++ openParenSp
          ++ jToString (rowGet acc.1 colIonMode) ++ closeParen))
      else acc.1
    if strStarts rfPre colName then
      let logColName := logPre ++ colName
      let r1 := rowSet r logColName (.num (mathLog jlog e.2))
      let r2 := rowDelete r1 colName
      let key := jToString (rowGet r2 colChemName)
      (r2, dictPush acc.2 key (rowGet r2 logColName))
    else (r, acc.2)

/-- First pass of cleanData over one row: fold the column steps over the
entry snapshot of the original row while mutating the row in place. -/
def cleanRowFirst (jlog : ℚ → ℚ) (row : Row) (dict : LogDict) : Row × LogDict :=
  row.foldl (cleanColStep jlog) (row, dict)

/-- First pass of cleanData over the dataset, threading the accumulator. -/
def cleanFirst (jlog : ℚ → ℚ) : List Row → LogDict → List Row × LogDict
  | [], dict => ([], dict)
  | row :: rest, dict =>
      let rd := cleanRowFirst jlog row dict
      let rs := cleanFirst jlog rest rd.2
      (rd.1 :: rs.1, rs.2)

/-- Relation form of jnumLe for List.insertionSort. -/
def jnumLeR (a b : JNum) : Prop := jnumLe a b = true

instance : DecidableRel jnumLeR :=
  fun a b => inferInstanceAs (Decidable (jnumLe a b = true))

/-- The numeric filter of d3-array's numbers(): undefined is skipped and
values whose numeric coercion is NaN are dropped. -/
def d3Numbers (vs : List JVal) : List JNum :=
  vs.filterMap (fun v =>
    match v with
    | .undefined => none
    | _ =>
        match jToNumber v with
        | .nan => none
        | x => some x)

/-- Model of d3.median: the p = 0.5 case of d3.quantile on the numeric
values.  Quickselect is modeled by a full sort, which produces the same
order statistics; the interpolation value0 + (value1 - value0) * (i - i0)
is kept verbatim, including its IEEE special-value behavior. -/
def d3Median (vs : List JVal) : Option JNum :=
  let v := List.insertionSort jnumLeR (d3Numbers vs)
  match v with
  | [] => none
  | [x] => some x
  | _ =>
      let n := v.length
      let i0 := (n - 1) / 2
      let v0 := (v[i0]?).getD JNum.nan
      let v1 := (v[i0 + 1]?).getD JNum.nan
      let frac : ℚ := if (n - 1) % 2 = 0 then 0 else 1 / 2
      some (jadd v0 (jmul (jsub v1 v0) (.fin frac)))

/-- The value d3.median hands back as a property value: a number, or
undefined when no numeric value remained. -/
def medianVal (o : Option JNum) : JVal :=
  match o with
  | some x => .num x
  | none => .undefined

/-- Second pass of cleanData.  Looking up a missing key hands undefined
to d3.median, which throws a TypeError when it iterates it: the error
value carries the rows as the caller sees them at that moment (rows
processed earlier already carry their median property). -/
def addMedians (dict : LogDict) : List Row → Except (List Row) (List Row)
  | [] => .ok []
  | row :: rest =>
      match dictFind dict (jToString (rowGet row colChemName)) with
      | none => .error (row :: rest)
      | some vals =>
          let row' := rowSet row colMedian (medianVal (d3Median vals))
          match addMedians dict rest with
          | .ok rest' => .ok (row' :: rest')
          | .error rest' => .error (row' :: rest')

/-- cleanData: the first pass over each row's entry snapshot, then the
median pass.  The ok payload is the cleaned rows; the error payload is
the partially mutated rows visible to the caller when the exception
escapes. -/
def cleanData (jlog : ℚ → ℚ) (data : List Row) : Except (List Row) (List Row) :=
  addMedians (cleanFirst jlog data []).2 (cleanFirst jlog data []).1

/-- The final per-chemical accumulator (logRFValues) built by the first
pass of cleanData. -/
def cleanDict (jlog : ℚ → ℚ) (data : List Row) : LogDict := (cleanFirst jlog data []).2

/-- One color produced by d3.interpolateRgb(c0, c1) at parameter t,
modeled symbolically: the interpolation is an external collaborator. -/
structure JColor where
  c0 : String
  c1 : String
  t : ℚ
  deriving DecidableEq

instance : Inhabited JColor := ⟨{ c0 := "", c1 := "", t := 0 }⟩

/-- generateColors: n interpolation samples between two colors. -/
def generateColors (color0 color1 : String) (n : Nat) : List JColor :=
  (List.range n).map (fun i => { c0 := color0, c1 := color1, t := (i : ℚ) / ((n : ℚ) - 1) })

def colorMagenta : String := "#CC00CC"
def colorTeal : String := "#009090"
def colorOrange : String := "#FF6600"
def colorOrange2 : String := "#FF9933"

/-- The palette of getPointsData: three interpolations concatenated, with
slice(1) and slice(1, -1) removing boundary duplicates. -/
def palette : List JColor :=
  generateColors colorMagenta colorTeal 4
    ++ (generateColors colorTeal colorOrange 4).drop 1
    ++ ((generateColors colorOrange2 colorMagenta 2).drop 1).dropLast

/-- One plot point, with the fields bound to a scatter-plot mark. -/
structure Point where
  chemical : JVal
  logRF : JVal
  featureId : JVal
  sampleName : String
  mode : JVal
  retentionTime : JVal
  color : JColor
  deriving DecidableEq

/-- includes on a chemical-name value; a non-string receiver is a
TypeError. -/
def jsIncludesE (v : JVal) (sub : String) : Except Unit Bool :=
  match v with
  | .str s => .ok (jsIncludes s sub)
  | _ => .error ()

/-- The ionization-mode filter at the top of the row loop of
getPointsData. -/
def rowSkip (showMode : String) (r : Row) : Except Unit Bool :=
  if showMode = modePlus then jsIncludesE (rowGet r colChemName) esiMinusTag
  else if showMode = modeMinus then jsIncludesE (rowGet r colChemName) esiPlusTag
  else .ok false

/-- The sample name derived from a log RF column name: element 1 of the
split on the "log RF " separator, with one trailing underscore stripped. -/
def sampleNameOfCol (key : String) : String :=
  stripTrailingUnderscore (((jsSplit key logRfPre).get? 1).getD (String.mk []))

/-- The per-column loop of getPointsData for one retained row.  The state
is the chemName register and the ordinal counter i; the returned state
feeds the next row. -/
def rowPoints (r : Row) : JVal → Nat → List (String × JVal) → List Point × JVal × Nat
  | chemName, i, [] => ([], chemName, i)
  | chemName, i, e :: es =>
      if strStarts logRfPre e.1 then
        let st :=
          if jvalSeq (rowGet r colChemName) chemName then (chemName, i)
          else (rowGet r colChemName, i + 1)
        let p : Point :=
          { chemical := rowGet r colChemName
            logRF := e.2
            featureId := rowGet r colFeatureId
            sampleName := sampleNameOfCol e.1
            mode := rowGet r colIonMode
            retentionTime := rowGet r colRetTime
            color := palette.getD (st.2 % 7) default }
        let res := rowPoints r st.1 st.2 es
        (p :: res.1, res.2)
      else rowPoints r chemName i es

/-- The row loop of getPointsData. -/
def buildPoints (showMode : String) : JVal → Nat → List Row → Except Unit (List Point)
  | _, _, [] => .ok []
  | chemName, i, r :: rest =>
      match rowSkip showMode r with
      | .error e => .error e
      | .ok true => buildPoints showMode chemName i rest
      | .ok false =>
          let st := rowPoints r chemName i r
          match buildPoints showMode st.2.1 st.2.2 rest with
          | .ok pts => .ok (st.1 ++ pts)
          | .error e => .error e

/-- getPointsData: reads the chemName register from the first row before
any filtering (a TypeError on an empty dataset), then walks all rows. -/
def getPointsData (data : List Row) (_nChemsPerPlot : Nat) (showMode : String) :
    Except Unit (List Point) :=
  match data with
  | [] => .error ()
  | r0 :: _ => buildPoints showMode (rowGet r0 colChemName) 0 data

/-- The sort comparator a[col] - b[col] of makeStripPlot. -/
def rowCmp (col : String) (a b : Row) : JNum :=
  jsub (jToNumber (rowGet a col)) (jToNumber (rowGet b col))

/-- Under an ES2019 stable sort with comparator c, an element a may stay
before b exactly when c(a, b) > 0 fails. -/
def rowLeB (col : String) (a b : Row) : Bool := !jnumGt (rowCmp col a b) (.fin 0)

/-- Relation form of rowLeB for List.insertionSort. -/
def rowLeR (col : String) (a b : Row) : Prop := rowLeB col a b = true

instance (col : String) : DecidableRel (rowLeR col) :=
  fun a b => inferInstanceAs (Decidable (rowLeB col a b = true))

/-- Array.prototype.sort with the numeric comparator on one column,
modeled as a stable insertion sort. -/
def jsSortRows (col : String) (rows : List Row) : List Row :=
  List.insertionSort (rowLeR col) rows

/-- The sort step of makeStripPlot: by Retention Time when sortedBy is
"rt", otherwise by Median Log RF. -/
def sortData (sortedBy : String) (rows : List Row) : List Row :=
  if sortedBy = sortKeyRt then jsSortRows colRetTime rows else jsSortRows colMedian rows

/-- The active sort column of makeStripPlot. -/
def sortKeyCol (sortedBy : String) : String :=
  if sortedBy = sortKeyRt then colRetTime else colMedian

/-- Sort-then-build, as makeStripPlot performs on every toggle. -/
def stripPlotPoints (sortedBy showMode : String) (nChems : Nat) (rows : List Row) :
    Except Unit (List Point) :=
  getPointsData (sortData sortedBy rows) nChems showMode

/-! ### Definitions taken from the specification's wording, together with
helper notions and the concrete fixtures used by witnesses and
counterexamples. -/

/-- The identity function as one concrete instance of the abstract
logarithm parameter; the theorems hold for every instance. -/
def jlogId : ℚ → ℚ := fun q => q

/-- A column the first pass of cleanData may leave behind: a keep-list
column or a log RF column. -/
def keepableCol (c : String) : Bool :=
  columnsToKeep.contains c || strStarts logRfPre c

/-- A column the Cleaner's output may contain, following the claimed
keep-list, the log RF columns and the median column. -/
def cleanedColOk (c : String) : Bool :=
  keepableCol c || decide (c = colMedian)

/-- Multiplicity of a column name in an entry list. -/
def keyCount (c : String) : List (String × JVal) → Nat
  | [] => 0
  | e :: es => (if e.1 = c then 1 else 0) + keyCount c es

/-- The median as the specification words it: sort ascending, take the
middle value for an odd count and the mean of the two central values for
an even count. -/
def specMedian (qs : List ℚ) : Option ℚ :=
  let s := List.insertionSort (fun a b => a ≤ b) qs
  match s with
  | [] => none
  | _ =>
      if s.length % 2 = 1 then s[s.length / 2]?
      else
        match s[s.length / 2 - 1]?, s[s.length / 2]? with
        | some a, some b => some ((a + b) / 2)
        | _, _ => none

/-- The sample name as claim C8 words it: the suffix behind the
"log RF " prefix, with exactly one trailing underscore removed. -/
def claimSampleName (suffix : String) : String :=
  if suffix.data.getLast? = some '_' then String.mk suffix.data.dropLast else suffix

/-- Projection of a point to its color-independent fields. -/
def dropColor (p : Point) : JVal × JVal × JVal × String × JVal × JVal :=
  (p.chemical, p.logRF, p.featureId, p.sampleName, p.mode, p.retentionTime)

/-- The tuples one row contributes to the point list, color aside: one
per log RF column, in column order, as claim C7 words it. -/
def rowPointsNC (r : Row) : List (JVal × JVal × JVal × String × JVal × JVal) :=
  r.filterMap (fun e =>
    if strStarts logRfPre e.1 then
      some (rowGet r colChemName, e.2, rowGet r colFeatureId, sampleNameOfCol e.1,
        rowGet r colIonMode, rowGet r colRetTime)
    else none)

/-- Number of log RF columns of a row. -/
def logColCount (r : Row) : Nat := (r.filter (fun e => strStarts logRfPre e.1)).length

/-- The rows the mode filter retains, failing where the filter itself
throws on a non-string chemical name. -/
def retainedRowsE (mode : String) : List Row → Except Unit (List Row)
  | [] => .ok []
  | r :: rest =>
      match rowSkip mode r with
      | .error e => .error e
      | .ok true => retainedRowsE mode rest
      | .ok false =>
          match retainedRowsE mode rest with
          | .ok l => .ok (r :: l)
          | .error e => .error e

/-- palette[i % 7], the color assigned at ordinal i. -/
def paletteAt (i : Nat) : JColor := palette.getD (i % 7) default

/-- One step of the register-and-counter machine of the amended C2
claim: at an emitted point, a row name not strictly equal to the
register updates the register and increments the counter. -/
def specColStep (v reg : JVal) (i : Nat) : JVal × Nat :=
  if jvalSeq v reg then (reg, i) else (v, i + 1)

/-- Ordinals assigned to the k log RF columns of one retained row whose
chemical-name value is v, per the amended C2 claim. -/
def specRowOrdinals (v : JVal) : Nat → JVal → Nat → List Nat × JVal × Nat
  | 0, reg, i => ([], reg, i)
  | k + 1, reg, i =>
      let st := specColStep v reg i
      let res := specRowOrdinals v k st.1 st.2
      (st.2 :: res.1, res.2)

/-- Ordinal stream over the retained rows, described by their
(chemical-name value, log-column count) summaries, per the amended C2
claim: the register starts at the unfiltered first row's name value. -/
def specOrdinals : JVal → Nat → List (JVal × Nat) → List Nat
  | _, _, [] => []
  | reg, i, rv :: rest =>
      let res := specRowOrdinals rv.1 rv.2 reg i
      res.1 ++ specOrdinals res.2.1 res.2.2 rest

/-- The (chemical-name value, log-column count) summary of a row. -/
def rowSummary (r : Row) : JVal × Nat := (rowGet r colChemName, logColCount r)

/-- The ordinal stream exactly as claim C2 words it, over the retained
rows only: the first retained row's key gets ordinal 0, and the counter
increments exactly when a retained row's key differs from the previous
retained row's key; every log RF column of a row receives the current
ordinal. -/
def claimOrdinalsAux (prev : JVal) (i : Nat) : List (JVal × Nat) → List Nat
  | [] => []
  | rv :: rest =>
      let i' := if rv.1 = prev then i else i + 1
      List.replicate rv.2 i' ++ claimOrdinalsAux rv.1 i' rest

/-- Entry point of the claimed C2 ordinal stream. -/
def claimOrdinals : List (JVal × Nat) → List Nat
  | [] => []
  | rv :: rest => List.replicate rv.2 0 ++ claimOrdinalsAux rv.1 0 rest

/-- Row comparison through the total order on the numeric coercions of
one column; on rows whose key cells are finite numbers it coincides with
the code comparator relation rowLeR and is total and transitive. -/
def rowLeT (col : String) (a b : Row) : Prop :=
  jnumLe (jToNumber (rowGet a col)) (jToNumber (rowGet b col)) = true

instance (col : String) : DecidableRel (rowLeT col) :=
  fun a b =>
    inferInstanceAs (Decidable (jnumLe (jToNumber (rowGet a col)) (jToNumber (rowGet b col)) = true))

/-- All-points predicate for claim C3: every point's chemical name is a
string free of the given tag. -/
def chemFree (pts : List Point) (tag : String) : Bool :=
  pts.all (fun p =>
    match p.chemical with
    | .str s => !jsIncludes s tag
    | _ => false)

/-- Extract an ok point list (empty on error); fixture helper. -/
def okPoints (e : Except Unit (List Point)) : List Point :=
  match e with
  | .ok l => l
  | .error _ => []

/-- Extract an ok row list (empty on error); fixture helper. -/
def okRows (e : Except (List Row) (List Row)) : List Row :=
  match e with
  | .ok l => l
  | .error _ => []

/-- Extract an error row list (empty on success); fixture helper. -/
def errRows (e : Except (List Row) (List Row)) : List Row :=
  match e with
  | .error l => l
  | .ok _ => []

/-- Extract retained rows (empty on error); fixture helper. -/
def okRetained (e : Except Unit (List Row)) : List Row :=
  match e with
  | .ok l => l
  | .error _ => []

/-- The specification's worked example: chemical A in both modes, two
samples in positive mode and one in negative mode. -/
def exampleRows : List Row :=
  [[(colChemName, JVal.str ("A")), (colIonMode, JVal.str ("ESI+")),
    (rfPre ++ "s1", JVal.num (JNum.fin 10)), (rfPre ++ "s2_", JVal.num (JNum.fin 20)),
    (colRetTime, JVal.num (JNum.fin 5))],
   [(colChemName, JVal.str ("A")), (colIonMode, JVal.str ("ESI-")),
    (rfPre ++ "s1", JVal.num (JNum.fin 5)), (colRetTime, JVal.num (JNum.fin 3))]]

/-- The example rows after cleaning (with the identity logarithm). -/
def cleanedExample : List Row := okRows (cleanData jlogId exampleRows)

/-- A dataset with a zero response-factor cell. -/
def c4dataZero : List Row :=
  [[(colChemName, JVal.str ("A")), (colIonMode, JVal.str ("ESI+")),
    (rfPre ++ "s", JVal.num (JNum.fin 0))]]

/-- The cleaned row the zero-cell dataset produces: the log column holds
negative infinity and so does the median. -/
def c4rowZero : Row :=
  [(colChemName, JVal.str ("A (ESI+)")), (colIonMode, JVal.str ("ESI+")),
   (logRfPre ++ "s", JVal.num JNum.neginf), (colMedian, JVal.num JNum.neginf)]

/-- A dataset with a negative response-factor cell, whose log is NaN. -/
def c1dataNeg : List Row :=
  [[(colChemName, JVal.str ("A")), (colIonMode, JVal.str ("ESI+")),
    (rfPre ++ "s", JVal.num (JNum.fin (-1)))]]

/-- The cleaned row the negative-cell dataset produces: the log column
holds NaN, and the median is undefined because d3.median drops NaN. -/
def c1rowNeg : Row :=
  [(colChemName, JVal.str ("A (ESI+)")), (colIonMode, JVal.str ("ESI+")),
   (logRfPre ++ "s", JVal.num JNum.nan), (colMedian, JVal.undefined)]

/-- Junk-column name used by fixtures. -/
def colExtra : String := "Extra"

deriving instance DecidableEq for Except

/-- A dataset on which cleanData throws: the single row has no RF column,
so its rewritten name never enters the accumulator and the median lookup
hands undefined to d3.median. -/
def c9data : List Row :=
  [[(colChemName, JVal.str ("A")), (colIonMode, JVal.str ("ESI+")),
    (colExtra, JVal.num (JNum.fin 1))]]

/-- The caller-visible row when cleanData throws on c9data: the name is
already rewritten and the junk column already deleted. -/
def c9rowMut : Row :=
  [(colChemName, JVal.str ("A (ESI+)")), (colIonMode, JVal.str ("ESI+"))]

/-- Two cleaned single-sample rows in opposite modes: the positive-mode
row comes first, so a negative-mode filter discards the row that seeded
the chemName register. -/
def c2rows : List Row :=
  [[(colChemName, JVal.str ("A (ESI+)")), (colIonMode, JVal.str ("ESI+")),
    (logRfPre ++ "s1", JVal.num (JNum.fin 1))],
   [(colChemName, JVal.str ("B (ESI-)")), (colIonMode, JVal.str ("ESI-")),
    (logRfPre ++ "s1", JVal.num (JNum.fin 2))]]

/-- A cleaned row whose log RF column's suffix itself contains the
"log RF " separator. -/
def c8rows : List Row :=
  [[(colChemName, JVal.str ("A (ESI+)")), (colIonMode, JVal.str ("ESI+")),
    (logRfPre ++ logRfPre ++ "s", JVal.num (JNum.fin 1))]]

/-! ### Lemmas about the row operations. -/

theorem rowKeys_cons (e : String × JVal) (es : Row) :
    rowKeys (e :: es) = e.1 :: rowKeys es := rfl

theorem rowGet_rowSet_self (r : Row) (k : String) (v : JVal) :
    rowGet (rowSet r k v) k = v := by
  induction r with
  | nil => simp [rowSet, rowGet]
  | cons e es ih =>
      by_cases h : e.1 = k
      · simp [rowSet, h, rowGet]
      · simp [rowSet, h, rowGet, ih]

theorem rowGet_rowSet_other (r : Row) (k k' : String) (v : JVal) (h : k' ≠ k) :
    rowGet (rowSet r k v) k' = rowGet r k' := by
  induction r with
  | nil => simp [rowSet, rowGet, Ne.symm h]
  | cons e es ih =>
      by_cases he : e.1 = k
      · simp [rowSet, he, rowGet, h, Ne.symm h, fun hh : e.1 = k' => h (he ▸ hh ▸ rfl)]
      · by_cases he' : e.1 = k'
        · simp [rowSet, he, rowGet, he', h]
        · simp [rowSet, he, rowGet, he', h, ih]

theorem mem_rowKeys_rowSet (r : Row) (k c : String) (v : JVal)
    (hc : c ∈ rowKeys (rowSet r k v)) : c ∈ rowKeys r ∨ c = k := by
  induction r with
  | nil => simpa [rowSet, rowKeys] using hc
  | cons e es ih =>
      by_cases he : e.1 = k
      · simp only [rowSet, he, if_pos, rowKeys_cons, List.mem_cons] at hc ⊢
        rcases hc with h | h
        · exact Or.inr h
        · exact Or.inl (Or.inr h)
      · simp only [rowSet, he, if_neg, not_false_iff, rowKeys_cons, List.mem_cons] at hc ⊢
        rcases hc with h | h
        · exact Or.inl (Or.inl h)
        · rcases ih h with h' | h'
          · exact Or.inl (Or.inr h')
          · exact Or.inr h'

theorem rowDelete_noop (r : Row) (k : String) (h : ¬ k ∈ rowKeys r) :
    rowDelete r k = r := by
  induction r with
  | nil => rfl
  | cons e es ih =>
      rw [rowKeys_cons] at h
      simp only [List.mem_cons, not_or] at h
      have he : ¬ e.1 = k := fun hh => h.1 hh.symm
      simp [rowDelete, he, ih h.2]

theorem rowDelete_rowSet (r : Row) (k : String) (v : JVal) (h : ¬ k ∈ rowKeys r) :
    rowDelete (rowSet r k v) k = r := by
  induction r with
  | nil => simp [rowSet, rowDelete]
  | cons e es ih =>
      rw [rowKeys_cons] at h
      simp only [List.mem_cons, not_or] at h
      have he : ¬ e.1 = k := fun hh => h.1 hh.symm
      simp [rowSet, he, rowDelete, ih h.2]

theorem keyCount_rowDelete_self (r : Row) (c : String) :
    keyCount c (rowDelete r c) = keyCount c r - 1 := by
  induction r with
  | nil => rfl
  | cons e es ih =>
      by_cases he : e.1 = c
      · simp [rowDelete, he, keyCount]
      · simp [rowDelete, he, keyCount, ih]

theorem keyCount_rowDelete_other (r : Row) (k c : String) (h : k ≠ c) :
    keyCount c (rowDelete r k) = keyCount c r := by
  induction r with
  | nil => rfl
  | cons e es ih =>
      by_cases he : e.1 = k
      · have hec : ¬ e.1 = c := by rw [he]; exact h
        simp [rowDelete, he, keyCount, hec, h]
      · simp [rowDelete, he, keyCount, ih]

theorem keyCount_rowSet_other (r : Row) (k c : String) (v : JVal) (h : k ≠ c) :
    keyCount c (rowSet r k v) = keyCount c r := by
  induction r with
  | nil => simp [rowSet, keyCount, h]
  | cons e es ih =>
      by_cases he : e.1 = k
      · have hec : ¬ e.1 = c := by rw [he]; exact h
        simp [rowSet, he, keyCount, hec, h]
      · simp [rowSet, he, keyCount, ih]

theorem keyCount_eq_zero (r : Row) (c : String) :
    keyCount c r = 0 ↔ ¬ c ∈ rowKeys r := by
  induction r with
  | nil => simp [keyCount, rowKeys]
  | cons e es ih =>
      rw [rowKeys_cons]
      by_cases he : e.1 = c
      · simp [keyCount, he]
      · have hce : ¬ c = e.1 := fun hh => he hh.symm
        simp [keyCount, he, ih, hce]

/-! ### Claim C10: the Point Builder fails on the empty input. -/

/-- C10: for the empty list of cleaned rows, getPointsData does not
return an empty point list: it reads the first row's Chemical Name
before filtering, so the empty-input call fails (a TypeError on
undefined, modeled as the error outcome), for every chemical count and
every mode filter. -/
theorem c10_empty_input_fails (n : Nat) (mode : String) :
    getPointsData [] n mode = .error () ∧ ∀ pts, getPointsData [] n mode ≠ .ok pts := by
  exact ⟨rfl, fun pts h => by simp [getPointsData] at h⟩

/-! ### Claim C4: the Cleaner does not reject bad response-factor cells. -/

/-- C4 counterexample: on a dataset whose single RF cell is 0 the Cleaner
does not fail with any error: it succeeds and silently stores
-Infinity as the log value (and as the median), contradicting the claim
that a zero cell fails with InvalidValueError and never produces a
-Infinity log value. -/
theorem c4_counterexample :
    cleanData jlogId c4dataZero = .ok [c4rowZero]
      ∧ rowGet c4rowZero (logRfPre ++ "s") = JVal.num JNum.neginf := by
  exact ⟨by decide, by decide⟩

/-- C4 amended: the Cleaner raises nothing on non-numeric, zero or
negative RF cells; Math.log silently yields -Infinity at zero and NaN on
negative or unparsable values, and a zero cell flows into a successful
clean whose log column holds -Infinity. -/
theorem c4_amended (jlog : ℚ → ℚ) (q : ℚ) (hq : q < 0) (s : String)
    (hs : parseJsNumber s = JNum.nan) :
    mathLog jlog (JVal.num (JNum.fin 0)) = JNum.neginf
      ∧ mathLog jlog (JVal.num (JNum.fin q)) = JNum.nan
      ∧ mathLog jlog (JVal.str s) = JNum.nan
      ∧ cleanData jlog c4dataZero = .ok [c4rowZero] := by
  refine ⟨rfl, ?_, ?_, rfl⟩
  · simp [mathLog, jToNumber, hq]
  · simp [mathLog, jToNumber, hs]

/-- C4 witness: the amended theorem applied at q = -1 and s = "abc". -/
theorem c4_amended_witness :
    ((-1 : ℚ) < 0 ∧ parseJsNumber ("abc") = JNum.nan)
      ∧ (mathLog jlogId (JVal.num (JNum.fin 0)) = JNum.neginf
        ∧ mathLog jlogId (JVal.num (JNum.fin (-1))) = JNum.nan
        ∧ mathLog jlogId (JVal.str ("abc")) = JNum.nan
        ∧ cleanData jlogId c4dataZero = .ok [c4rowZero]) := by
  exact ⟨⟨by norm_num, by decide⟩, c4_amended jlogId (-1) (by norm_num) ("abc") (by decide)⟩

/-! ### The first pass of cleanData leaves only keepable columns. -/

theorem listIsPrefixOf_append (a b c : List Char) :
    (a ++ b).isPrefixOf (a ++ c) = b.isPrefixOf c := by
  induction a with
  | nil => rfl
  | cons x xs ih => simp [List.isPrefixOf, ih]

theorem keepable_logCol (c : String) (h : strStarts rfPre c = true) :
    keepableCol (logPre ++ c) = true := by
  unfold keepableCol
  rw [Bool.or_eq_true]
  right
  show logRfPre.data.isPrefixOf (logPre ++ c).data = true
  rw [String.data_append]
  have hsplit : logRfPre.data = logPre.data ++ rfPre.data := by decide
  rw [hsplit, listIsPrefixOf_append]
  exact h

theorem cleanColFold_keyCount (jlog : ℚ → ℚ) (c : String) (hc : keepableCol c = false) :
    ∀ (es : List (String × JVal)) (acc : Row × LogDict),
      keyCount c acc.1 ≤ keyCount c es →
      keyCount c ((es.foldl (cleanColStep jlog) acc).1) = 0 := by
  intro es
  induction es with
  | nil =>
      intro acc h
      simp only [List.foldl_nil]
      exact Nat.le_zero.mp (by simpa [keyCount] using h)
  | cons e es ih =>
      intro acc h
      rw [List.foldl_cons]
      refine ih _ ?_
      have hcount : keyCount c acc.1 ≤ (if e.1 = c then 1 else 0) + keyCount c es := by
        simpa [keyCount] using h
      have hcontains : columnsToKeep.contains c = false ∧ strStarts logRfPre c = false := by
        have hc' := hc
        unfold keepableCol at hc'
        exact Bool.or_eq_false_iff.mp hc'
      by_cases h1 : strStarts rfPre e.1 = true
      · have hne : ¬ e.1 = colChemName := by
          intro hh
          rw [hh] at h1
          exact absurd h1 (by decide)
        have hlog : ¬ (logPre ++ e.1) = c := by
          intro hh
          rw [← hh] at hc
          rw [keepable_logCol e.1 h1] at hc
          exact Bool.noConfusion hc
        have hstep : (cleanColStep jlog acc e).1
            = rowDelete (rowSet acc.1 (logPre ++ e.1) (JVal.num (mathLog jlog e.2))) e.1 := by
          simp [cleanColStep, h1, hne]
        rw [hstep]
        by_cases hec : e.1 = c
        · rw [hec] at hlog
          rw [hec, keyCount_rowDelete_self, keyCount_rowSet_other _ _ _ _ hlog]
          simp only [if_pos hec] at hcount
          omega
        · rw [keyCount_rowDelete_other _ _ _ hec, keyCount_rowSet_other _ _ _ _ hlog]
          simp only [if_neg hec] at hcount
          omega
      · by_cases h2 : columnsToKeep.contains e.1 = true
        · have hec : ¬ e.1 = c := by
            intro hh
            rw [hh] at h2
            rw [hcontains.1] at h2
            exact Bool.noConfusion h2
          have h2m : e.1 ∈ columnsToKeep := by simpa using h2
          have hstep : (cleanColStep jlog acc e).1
              = if e.1 = colChemName then
                  rowSet acc.1 e.1 (.str (jToString (rowGet acc.1 colChemName)
                    ++ openParenSp ++ jToString (rowGet acc.1 colIonMode) ++ closeParen))
                else acc.1 := by
            simp [cleanColStep, h1, h2, h2m]
          rw [hstep]
          simp only [if_neg hec] at hcount
          by_cases hcn : e.1 = colChemName
          · rw [if_pos hcn, keyCount_rowSet_other _ _ _ _ hec]
            omega
          · rw [if_neg hcn]
            omega
        · have h2m : ¬ e.1 ∈ columnsToKeep := by simpa using h2
          have hstep : (cleanColStep jlog acc e).1 = rowDelete acc.1 e.1 := by
            simp [cleanColStep, h1, h2, h2m]
          rw [hstep]
          by_cases hec : e.1 = c
          · rw [hec, keyCount_rowDelete_self]
            simp only [if_pos hec] at hcount
            omega
          · rw [keyCount_rowDelete_other _ _ _ hec]
            simp only [if_neg hec] at hcount
            omega

theorem cleanFirst_keepable (jlog : ℚ → ℚ) (data : List Row) :
    ∀ dict, ∀ r ∈ (cleanFirst jlog data dict).1, ∀ c, keepableCol c = false →
      ¬ c ∈ rowKeys r := by
  induction data with
  | nil => simp [cleanFirst]
  | cons row rest ih =>
      intro dict r hr c hcc
      simp only [cleanFirst, List.mem_cons] at hr
      rcases hr with h | h
      · subst h
        rw [← keyCount_eq_zero]
        exact cleanColFold_keyCount jlog c hcc row (row, dict) (le_refl _)
      · exact ih _ r h c hcc

theorem cleanFirst_length (jlog : ℚ → ℚ) (data : List Row) :
    ∀ dict, (cleanFirst jlog data dict).1.length = data.length := by
  induction data with
  | nil => intro dict; rfl
  | cons row rest ih => intro dict; simp [cleanFirst, ih]

/-! ### Behavior of the median pass. -/

theorem addMedians_error_shape (dict : LogDict) (rows rows' : List Row)
    (hnm : ∀ r ∈ rows, ¬ colMedian ∈ rowKeys r)
    (h : addMedians dict rows = .error rows') :
    rows'.map (fun r => rowDelete r colMedian) = rows := by
  induction rows generalizing rows' with
  | nil => simp [addMedians] at h
  | cons row rest ih =>
      rw [addMedians] at h
      cases hf : dictFind dict (jToString (rowGet row colChemName)) with
      | none =>
          rw [hf] at h
          simp only [Except.error.injEq] at h
          subst h
          have hall : ∀ r ∈ row :: rest, rowDelete r colMedian = r :=
            fun r hr => rowDelete_noop _ _ (hnm r hr)
          calc (row :: rest).map (fun r => rowDelete r colMedian)
              = (row :: rest).map id := List.map_congr_left hall
            _ = row :: rest := List.map_id _
      | some vals =>
          rw [hf] at h
          simp only at h
          cases hrec : addMedians dict rest with
          | ok rest' => rw [hrec] at h; simp at h
          | error rest' =>
              rw [hrec] at h
              simp only [Except.error.injEq] at h
              subst h
              simp only [List.map_cons]
              rw [rowDelete_rowSet _ _ _ (hnm row (List.mem_cons_self _ _))]
              rw [ih rest' (fun r hr => hnm r (List.mem_cons_of_mem _ hr)) hrec]

theorem addMedians_ok_length (dict : LogDict) (rows out : List Row)
    (h : addMedians dict rows = .ok out) : out.length = rows.length := by
  induction rows generalizing out with
  | nil => rw [addMedians] at h; simp only [Except.ok.injEq] at h; subst h; rfl
  | cons row rest ih =>
      rw [addMedians] at h
      cases hf : dictFind dict (jToString (rowGet row colChemName)) with
      | none => rw [hf] at h; simp at h
      | some vals =>
          rw [hf] at h
          simp only at h
          cases hrec : addMedians dict rest with
          | error rest' => rw [hrec] at h; simp at h
          | ok rest' =>
              rw [hrec] at h
              simp only [Except.ok.injEq] at h
              subst h
              simp [ih rest' hrec]

theorem addMedians_ok_mem (dict : LogDict) (rows out : List Row)
    (h : addMedians dict rows = .ok out) :
    ∀ r ∈ out, ∃ r0 ∈ rows, ∃ vals,
      dictFind dict (jToString (rowGet r0 colChemName)) = some vals
        ∧ r = rowSet r0 colMedian (medianVal (d3Median vals)) := by
  induction rows generalizing out with
  | nil =>
      rw [addMedians] at h
      simp only [Except.ok.injEq] at h
      subst h
      simp
  | cons row rest ih =>
      rw [addMedians] at h
      cases hf : dictFind dict (jToString (rowGet row colChemName)) with
      | none => rw [hf] at h; simp at h
      | some vals =>
          rw [hf] at h
          simp only at h
          cases hrec : addMedians dict rest with
          | error rest' => rw [hrec] at h; simp at h
          | ok rest' =>
              rw [hrec] at h
              simp only [Except.ok.injEq] at h
              subst h
              intro r hr
              rcases List.mem_cons.mp hr with h' | h'
              · exact ⟨row, List.mem_cons_self _ _, vals, hf, h'⟩
              · rcases ih rest' hrec r h' with ⟨r0, hr0, vs, hvs, hres⟩
                exact ⟨r0, List.mem_cons_of_mem _ hr0, vs, hvs, hres⟩

/-! ### Claim C9: the Cleaner mutates the caller's rows even on failure. -/

/-- C9 counterexample: on a single row with no RF column the Cleaner
throws, and at that moment the caller-visible row has already been
mutated (junk column deleted, chemical name rewritten), contradicting
the claim that failing inputs are left unchanged. -/
theorem c9_counterexample :
    cleanData jlogId c9data = .error [c9rowMut] ∧ [c9rowMut] ≠ c9data := by
  exact ⟨by decide, by decide⟩

/-- C9 amended: the Cleaner works in place, so when it throws, the
caller-visible rows are exactly the first-pass rows (columns dropped,
names rewritten, RF columns replaced by log columns), except that rows
processed before the failure also carry their median property. -/
theorem c9_amended (jlog : ℚ → ℚ) (data rows' : List Row)
    (h : cleanData jlog data = .error rows') :
    rows'.map (fun r => rowDelete r colMedian) = (cleanFirst jlog data []).1 := by
  unfold cleanData at h
  exact addMedians_error_shape _ _ _
    (fun r hr => cleanFirst_keepable jlog data [] r hr colMedian (by decide)) h

/-- C9 witness: the amended theorem at the concrete failing input. -/
theorem c9_amended_witness :
    cleanData jlogId c9data = .error [c9rowMut]
      ∧ [c9rowMut].map (fun r => rowDelete r colMedian) = (cleanFirst jlogId c9data []).1 := by
  exact ⟨by decide, c9_amended jlogId c9data [c9rowMut] (by decide)⟩

/-! ### Claim C5: shape of the Cleaner's output. -/

/-- C5: whenever cleanData succeeds, the output has as many rows as the
input and every column of every output row is an identity column, a
"log RF "-prefixed column, or "Median Log RF"; in particular no raw RF
column and no other original column survives. -/
theorem c5_theorem (jlog : ℚ → ℚ) (data out : List Row)
    (h : cleanData jlog data = .ok out) :
    out.length = data.length
      ∧ out.all (fun r => r.all (fun e => cleanedColOk e.1)) = true := by
  unfold cleanData at h
  constructor
  · rw [addMedians_ok_length _ _ _ h, cleanFirst_length]
  · rw [List.all_eq_true]
    intro r hr
    rw [List.all_eq_true]
    intro e he
    rcases addMedians_ok_mem _ _ _ h r hr with ⟨r0, hr0, vals, _, rfl⟩
    have hk : e.1 ∈ rowKeys (rowSet r0 colMedian (medianVal (d3Median vals))) :=
      List.mem_map_of_mem Prod.fst he
    rcases mem_rowKeys_rowSet _ _ _ _ hk with hk' | hk'
    · cases hkeep : keepableCol e.1 with
      | false => exact absurd hk' (cleanFirst_keepable jlog data [] r0 hr0 e.1 hkeep)
      | true => simp [cleanedColOk, hkeep]
    · simp [cleanedColOk, hk']

/-- C5 witness: the theorem at the specification's worked example. -/
theorem c5_witness :
    cleanData jlogId exampleRows = .ok cleanedExample
      ∧ (cleanedExample.length = exampleRows.length
        ∧ cleanedExample.all (fun r => r.all (fun e => cleanedColOk e.1)) = true) := by
  exact ⟨rfl, c5_theorem jlogId exampleRows cleanedExample rfl⟩

/-! ### The row loop of the Point Builder. -/

theorem rowSkip_both (r : Row) : rowSkip modeBoth r = .ok false := by
  unfold rowSkip
  rw [if_neg (by decide), if_neg (by decide)]

theorem rowPoints_chemical (r : Row) :
    ∀ (es : List (String × JVal)) (c : JVal) (i : Nat),
      ∀ p ∈ (rowPoints r c i es).1, p.chemical = rowGet r colChemName := by
  intro es
  induction es with
  | nil => intro c i p hp; simp [rowPoints] at hp
  | cons e es ih =>
      intro c i p hp
      by_cases hl : strStarts logRfPre e.1 = true
      · rw [rowPoints] at hp
        rw [if_pos hl] at hp
        simp only [List.mem_cons] at hp
        rcases hp with h | h
        · rw [h]
        · exact ih _ _ p h
      · rw [rowPoints] at hp
        rw [if_neg hl] at hp
        exact ih _ _ p hp

theorem rowPoints_dropColor (r : Row) :
    ∀ (es : List (String × JVal)) (c : JVal) (i : Nat),
      (rowPoints r c i es).1.map dropColor
        = es.filterMap (fun e =>
            if strStarts logRfPre e.1 then
              some (rowGet r colChemName, e.2, rowGet r colFeatureId, sampleNameOfCol e.1,
                rowGet r colIonMode, rowGet r colRetTime)
            else none) := by
  intro es
  induction es with
  | nil => intro c i; rfl
  | cons e es ih =>
      intro c i
      by_cases hl : strStarts logRfPre e.1 = true
      · rw [rowPoints, if_pos hl]
        simp only [List.map_cons, List.filterMap_cons, hl, if_pos, dropColor]
        rw [ih]
      · rw [rowPoints, if_neg hl]
        rw [ih]
        simp [List.filterMap_cons, hl]

theorem filterMap_if_length {β : Type} (p : String × JVal → Bool)
    (f : String × JVal → β) :
    ∀ es : List (String × JVal),
      (es.filterMap (fun e => if p e then some (f e) else none)).length
        = (es.filter p).length := by
  intro es
  induction es with
  | nil => rfl
  | cons e es ih =>
      by_cases hp : p e = true
      · simp [List.filterMap_cons, List.filter_cons, hp, ih]
      · simp [List.filterMap_cons, List.filter_cons, hp, ih]

theorem rowPointsNC_length (r : Row) : (rowPointsNC r).length = logColCount r := by
  unfold rowPointsNC logColCount
  exact filterMap_if_length _ _ r

/-- A successful skip test for modes "+" and "-" pins the chemical name
to a string free of the corresponding tag. -/
theorem jsIncludesE_ok_false (v : JVal) (tag : String)
    (h : jsIncludesE v tag = .ok false) :
    ∃ s, v = .str s ∧ jsIncludes s tag = false := by
  cases v with
  | str s =>
      refine ⟨s, rfl, ?_⟩
      simpa [jsIncludesE] using h
  | num x => simp [jsIncludesE] at h
  | undefined => simp [jsIncludesE] at h

theorem buildPoints_filter_chem (mode tag : String)
    (hmode : ∀ r : Row, rowSkip mode r = jsIncludesE (rowGet r colChemName) tag) :
    ∀ (rows : List Row) (c : JVal) (i : Nat) (pts : List Point),
      buildPoints mode c i rows = .ok pts → chemFree pts tag = true := by
  intro rows
  induction rows with
  | nil =>
      intro c i pts h
      rw [buildPoints] at h
      simp only [Except.ok.injEq] at h
      subst h
      rfl
  | cons r rest ih =>
      intro c i pts h
      rw [buildPoints, hmode r] at h
      cases hv : jsIncludesE (rowGet r colChemName) tag with
      | error e => rw [hv] at h; simp at h
      | ok b =>
          rw [hv] at h
          cases b with
          | true => exact ih _ _ _ h
          | false =>
              simp only at h
              cases hrec : buildPoints mode (rowPoints r c i r).2.1 (rowPoints r c i r).2.2 rest with
              | error e => rw [hrec] at h; simp at h
              | ok pts' =>
                  rw [hrec] at h
                  simp only [Except.ok.injEq] at h
                  subst h
                  rcases jsIncludesE_ok_false _ _ hv with ⟨s, hvs, hfree⟩
                  unfold chemFree
                  rw [List.all_append, Bool.and_eq_true]
                  refine ⟨?_, ih _ _ _ hrec⟩
                  rw [List.all_eq_true]
                  intro p hp
                  rw [rowPoints_chemical r r _ _ p hp, hvs]
                  simpa using hfree

/-! ### Claim C3: the ionization-mode filter. -/

/-- C3: with modeFilter "+" every emitted point's chemical-identity key
is a string not containing "(ESI-)"; with "-" none contains "(ESI+)";
and with "both" the filter excludes no row at all. -/
theorem c3_theorem (rows : List Row) (n : Nat) (ptsP ptsM : List Point)
    (hp : getPointsData rows n modePlus = .ok ptsP)
    (hm : getPointsData rows n modeMinus = .ok ptsM) (r : Row) :
    chemFree ptsP esiMinusTag = true
      ∧ chemFree ptsM esiPlusTag = true
      ∧ rowSkip modeBoth r = .ok false := by
  refine ⟨?_, ?_, rowSkip_both r⟩
  · cases rows with
    | nil => simp [getPointsData] at hp
    | cons r0 rest =>
        exact buildPoints_filter_chem modePlus esiMinusTag
          (fun rr => by unfold rowSkip; rw [if_pos rfl]) _ _ _ _ hp
  · cases rows with
    | nil => simp [getPointsData] at hm
    | cons r0 rest =>
        exact buildPoints_filter_chem modeMinus esiPlusTag
          (fun rr => by unfold rowSkip; rw [if_neg (by decide), if_pos rfl]) _ _ _ _ hm

/-- C3 witness: the theorem at the cleaned worked example. -/
theorem c3_witness :
    getPointsData cleanedExample 10 modePlus = .ok (okPoints (getPointsData cleanedExample 10 modePlus))
      ∧ getPointsData cleanedExample 10 modeMinus = .ok (okPoints (getPointsData cleanedExample 10 modeMinus))
      ∧ (chemFree (okPoints (getPointsData cleanedExample 10 modePlus)) esiMinusTag = true
        ∧ chemFree (okPoints (getPointsData cleanedExample 10 modeMinus)) esiPlusTag = true
        ∧ rowSkip modeBoth [] = .ok false) := by
  exact ⟨rfl, rfl, c3_theorem cleanedExample 10 _ _ rfl rfl []⟩

/-! ### Claim C7: one point per (row, log RF column) pair under "both". -/

theorem buildPoints_both_proj (rows : List Row) :
    ∀ (c : JVal) (i : Nat) (pts : List Point),
      buildPoints modeBoth c i rows = .ok pts →
      pts.map dropColor = (rows.map rowPointsNC).flatten := by
  induction rows with
  | nil =>
      intro c i pts h
      rw [buildPoints] at h
      simp only [Except.ok.injEq] at h
      subst h
      rfl
  | cons r rest ih =>
      intro c i pts h
      rw [buildPoints, rowSkip_both r] at h
      simp only at h
      cases hrec : buildPoints modeBoth (rowPoints r c i r).2.1 (rowPoints r c i r).2.2 rest with
      | error e => rw [hrec] at h; simp at h
      | ok pts' =>
          rw [hrec] at h
          simp only [Except.ok.injEq] at h
          subst h
          rw [List.map_append, List.map_cons, List.flatten_cons]
          rw [rowPoints_dropColor r r c i, ih _ _ _ hrec]
          rfl

/-- C7: with modeFilter "both", the Point Builder emits exactly one point
per (row, log RF column) pair, in row order then column order; dropping
the stateful color field, the point list is the concatenation of the
per-row tuples, and its length is the sum over rows of the number of
their log RF columns. -/
theorem c7_theorem (rows : List Row) (n : Nat) (pts : List Point)
    (h : getPointsData rows n modeBoth = .ok pts) :
    pts.map dropColor = (rows.map rowPointsNC).flatten
      ∧ pts.length = (rows.map logColCount).sum := by
  have hproj : pts.map dropColor = (rows.map rowPointsNC).flatten := by
    cases rows with
    | nil => simp [getPointsData] at h
    | cons r0 rest => exact buildPoints_both_proj _ _ _ _ h
  refine ⟨hproj, ?_⟩
  have hlen : (pts.map dropColor).length = ((rows.map rowPointsNC).flatten).length :=
    congrArg List.length hproj
  rw [List.length_map] at hlen
  rw [hlen, List.length_flatten]
  congr 1
  rw [List.map_map]
  exact List.map_congr_left (fun r _ => rowPointsNC_length r)

/-! ### Claim C8: sample-name derivation. -/

theorem listIsPrefixOf_self_append (l t : List Char) : l.isPrefixOf (l ++ t) = true := by
  induction l with
  | nil => simp [List.isPrefixOf]
  | cons x xs ih => simp [List.isPrefixOf, ih]

theorem jsSplitAux_no_sep (sep : List Char) :
    ∀ (fuel : Nat) (l cur : List Char), l.length ≤ fuel → listIsInfixB sep l = false →
      jsSplitAux sep cur l fuel = [cur.reverse ++ l] := by
  intro fuel
  induction fuel with
  | zero => intro l cur _ _; rw [jsSplitAux]
  | succ fuel ih =>
      intro l cur hf h
      cases l with
      | nil => simp [jsSplitAux]
      | cons c rest =>
          unfold listIsInfixB at h
          rcases Bool.or_eq_false_iff.mp h with ⟨h1, h2⟩
          rw [jsSplitAux, if_neg (by rw [h1]; exact Bool.false_ne_true)]
          rw [ih rest (c :: cur) (by simp at hf; omega) h2]
          simp

theorem jsSplitAux_starts (sep : List Char) (hsep : sep ≠ []) (suffix : List Char)
    (h : listIsInfixB sep suffix = false) (fuel : Nat)
    (hf : (sep ++ suffix).length ≤ fuel + 1) (hf2 : suffix.length ≤ fuel) :
    jsSplitAux sep [] (sep ++ suffix) (fuel + 1) = [[], suffix] := by
  cases sep with
  | nil => exact absurd rfl hsep
  | cons c cs =>
      have hpre : (c :: cs).isPrefixOf (c :: (cs ++ suffix)) = true :=
        listIsPrefixOf_self_append (c :: cs) suffix
      rw [List.cons_append, jsSplitAux, if_pos hpre]
      have hdrop : (cs ++ suffix).drop ((c :: cs).length - 1) = suffix := by
        simp only [List.length_cons, Nat.add_sub_cancel]
        exact List.drop_left cs suffix
      rw [hdrop, jsSplitAux_no_sep (c :: cs) fuel suffix [] hf2 h]
      rfl

/-- C8 counterexample: a column named "log RF log RF s" has suffix
"log RF s" behind the prefix, so the claim demands sampleName
"log RF s"; the code's split-based derivation yields the empty string
instead. -/
theorem c8_counterexample :
    (okPoints (getPointsData c8rows 10 modeBoth)).map (fun p => p.sampleName) = [String.mk []]
      ∧ claimSampleName (logRfPre ++ "s") = logRfPre ++ "s"
      ∧ String.mk [] ≠ logRfPre ++ "s" := by
  exact ⟨by decide, by decide, by decide⟩

/-- C8 amended: the sample name of a column "log RF <suffix>" equals the
suffix with one trailing underscore removed, provided the suffix does
not itself contain "log RF "; a suffix containing the separator is
truncated at its first occurrence by the split. -/
theorem c8_amended (suffix : String) (h : jsIncludes suffix logRfPre = false) :
    sampleNameOfCol (logRfPre ++ suffix) = claimSampleName suffix := by
  unfold sampleNameOfCol jsSplit
  rw [String.data_append]
  have h' : listIsInfixB logRfPre.data suffix.data = false := h
  have hlen7 : logRfPre.data.length = 7 := by decide
  have hlen : (logRfPre.data ++ suffix.data).length = (6 + suffix.data.length) + 1 := by
    rw [List.length_append, hlen7]
    omega
  rw [hlen, jsSplitAux_starts logRfPre.data (by decide) suffix.data h'
    (6 + suffix.data.length) (by rw [List.length_append, hlen7]; omega) (by omega)]
  simp only [List.map_cons, List.map_nil, List.get?]
  show stripTrailingUnderscore (String.mk suffix.data) = claimSampleName suffix
  unfold stripTrailingUnderscore claimSampleName
  cases hl : suffix.data.getLast? with
  | none => simp [hl]
  | some c =>
      by_cases hc : c = '_'
      · simp [hl, hc]
      · simp [hl, hc]

/-- C8 witness: the amended theorem at the specification's two examples
of the derivation. -/
theorem c8_amended_witness :
    (jsIncludes ("sample1_") logRfPre = false
        ∧ sampleNameOfCol (logRfPre ++ "sample1_") = claimSampleName ("sample1_"))
      ∧ claimSampleName ("sample1_") = ("sample1")
      ∧ claimSampleName ("sample2") = ("sample2") := by
  exact ⟨⟨by decide, c8_amended ("sample1_") (by decide)⟩, by decide, by decide⟩

/-- C7 witness: the theorem at the cleaned worked example. -/
theorem c7_witness :
    getPointsData cleanedExample 10 modeBoth = .ok (okPoints (getPointsData cleanedExample 10 modeBoth))
      ∧ ((okPoints (getPointsData cleanedExample 10 modeBoth)).map dropColor
          = (cleanedExample.map rowPointsNC).flatten
        ∧ (okPoints (getPointsData cleanedExample 10 modeBoth)).length
          = (cleanedExample.map logColCount).sum) := by
  exact ⟨rfl, c7_theorem cleanedExample 10 _ rfl⟩

/-! ### Claim C1: the per-chemical median. -/

theorem d3Numbers_fins (qs : List ℚ) :
    d3Numbers (qs.map (fun q => JVal.num (JNum.fin q))) = qs.map JNum.fin := by
  induction qs with
  | nil => rfl
  | cons q qs ih =>
      simp only [List.map_cons]
      rw [d3Numbers, List.filterMap_cons]
      rw [d3Numbers] at ih
      simp only [jToNumber] at ih ⊢
      rw [ih]

theorem jadd_interp_half (x y : ℚ) :
    jadd (JNum.fin x) (jmul (jsub (JNum.fin y) (JNum.fin x)) (JNum.fin (1 / 2)))
      = JNum.fin ((x + y) / 2) := by
  show JNum.fin (x + (y + -x) * (1 / 2)) = JNum.fin ((x + y) / 2)
  exact congrArg JNum.fin (by ring)

theorem jadd_interp_zero (x y : ℚ) :
    jadd (JNum.fin x) (jmul (jsub (JNum.fin y) (JNum.fin x)) (JNum.fin 0))
      = JNum.fin x := by
  show JNum.fin (x + (y + -x) * 0) = JNum.fin x
  exact congrArg JNum.fin (by ring)

theorem d3Median_fins (qs : List ℚ) (hne : qs ≠ []) :
    ∃ m, specMedian qs = some m
      ∧ d3Median (qs.map (fun q => JVal.num (JNum.fin q))) = some (JNum.fin m) := by
  have hmapsort : List.insertionSort jnumLeR (qs.map JNum.fin)
      = (List.insertionSort (fun a b : ℚ => a ≤ b) qs).map JNum.fin :=
    (List.map_insertionSort (fun a b : ℚ => a ≤ b) jnumLeR JNum.fin qs
      (fun a _ b _ => by simp [jnumLeR, jnumLe])).symm
  unfold d3Median specMedian
  rw [d3Numbers_fins, hmapsort]
  obtain ⟨a, rest, hcs⟩ :
      ∃ a rest, List.insertionSort (fun a b : ℚ => a ≤ b) qs = a :: rest := by
    cases hcs : List.insertionSort (fun a b : ℚ => a ≤ b) qs with
    | nil =>
        exfalso
        apply hne
        have hl := List.length_insertionSort (fun a b : ℚ => a ≤ b) qs
        rw [hcs] at hl
        exact List.length_eq_zero.mp hl.symm
    | cons a rest => exact ⟨a, rest, rfl⟩
  rw [hcs]
  cases rest with
  | nil => exact ⟨a, by simp, by simp⟩
  | cons b rest2 =>
      simp only [List.map_cons]
      have hn : (JNum.fin a :: JNum.fin b :: rest2.map JNum.fin).length
          = rest2.length + 2 := by simp
      rcases Nat.even_or_odd rest2.length with he | ho
      · -- even tail: the whole list has even length, mean of the two central values
        obtain ⟨t, ht⟩ := he
        have hi0 : (rest2.length + 2 - 1) / 2 = t := by omega
        have hlt0 : t < (a :: b :: rest2).length := by simp; omega
        have hlt1 : t + 1 < (a :: b :: rest2).length := by simp; omega
        refine ⟨((a :: b :: rest2)[t] + (a :: b :: rest2)[t + 1]) / 2, ?_, ?_⟩
        · have hodd : ¬ (a :: b :: rest2).length % 2 = 1 := by simp; omega
          rw [if_neg hodd]
          have ha' : (a :: b :: rest2).length / 2 - 1 = t := by simp; omega
          have hb' : (a :: b :: rest2).length / 2 = t + 1 := by simp; omega
          rw [ha', hb', List.getElem?_eq_getElem hlt0, List.getElem?_eq_getElem hlt1]
        · simp only [hn, hi0]
          have hmap2 : JNum.fin a :: JNum.fin b :: rest2.map JNum.fin
              = (a :: b :: rest2).map JNum.fin := rfl
          rw [hmap2, List.getElem?_map, List.getElem?_map,
            List.getElem?_eq_getElem hlt0, List.getElem?_eq_getElem hlt1]
          have hfrac : ¬ (rest2.length + 2 - 1) % 2 = 0 := by omega
          rw [if_neg hfrac]
          simp only [Option.map_some', Option.getD_some]
          exact congrArg some (jadd_interp_half _ _)
      · -- odd tail: odd length, the middle value
        obtain ⟨t, ht⟩ := ho
        have hi0 : (rest2.length + 2 - 1) / 2 = t + 1 := by omega
        have hlt0 : t + 1 < (a :: b :: rest2).length := by simp; omega
        have hlt1 : t + 1 + 1 < (a :: b :: rest2).length := by simp; omega
        refine ⟨(a :: b :: rest2)[t + 1], ?_, ?_⟩
        · have hodd : (a :: b :: rest2).length % 2 = 1 := by simp; omega
          rw [if_pos hodd]
          have ha' : (a :: b :: rest2).length / 2 = t + 1 := by simp; omega
          rw [ha', List.getElem?_eq_getElem hlt0]
        · simp only [hn, hi0]
          have hmap2 : JNum.fin a :: JNum.fin b :: rest2.map JNum.fin
              = (a :: b :: rest2).map JNum.fin := rfl
          rw [hmap2, List.getElem?_map, List.getElem?_map,
            List.getElem?_eq_getElem hlt0, List.getElem?_eq_getElem hlt1]
          have hfrac : (rest2.length + 2 - 1) % 2 = 0 := by omega
          rw [if_pos hfrac]
          simp only [Option.map_some', Option.getD_some]
          exact congrArg some (jadd_interp_zero _ _)

/-- C1 amended: whenever cleanData succeeds and the values accumulated
for a chemical-identity key k are all finite numbers, every output row
whose rewritten Chemical Name is k carries the same Median Log RF, and
that shared value is the claimed median (sort ascending; middle value
for an odd count, mean of the two central values for an even count) of
the accumulated values.  The restriction to finite accumulated values is
forced by the counterexample: d3.median silently drops NaN log values
and interpolates infinities into NaN. -/
theorem c1_amended (jlog : ℚ → ℚ) (data out : List Row) (k : String) (qs : List ℚ)
    (m : ℚ) (r1 r2 r3 : Row)
    (hok : cleanData jlog data = .ok out)
    (h1 : r1 ∈ out) (h2 : r2 ∈ out) (h3 : r3 ∈ out)
    (hk1 : rowGet r1 colChemName = .str k) (hk2 : rowGet r2 colChemName = .str k)
    (hk3 : rowGet r3 colChemName = .str k)
    (hdict : dictFind (cleanDict jlog data) k
      = some (qs.map (fun q => JVal.num (JNum.fin q))))
    (hm : specMedian qs = some m) :
    rowGet r1 colMedian = rowGet r2 colMedian
      ∧ rowGet r3 colMedian = JVal.num (JNum.fin m) := by
  have hqs : qs ≠ [] := by
    intro h
    rw [h] at hm
    simp [specMedian] at hm
  obtain ⟨m', hspec, hd3⟩ := d3Median_fins qs hqs
  have hmm : m' = m := by
    rw [hspec] at hm
    exact Option.some.inj hm
  have hd3' : d3Median (qs.map (fun q => JVal.num (JNum.fin q))) = some (JNum.fin m) := by
    rw [hd3, hmm]
  unfold cleanData at hok
  unfold cleanDict at hdict
  have main : ∀ r ∈ out, rowGet r colChemName = .str k →
      rowGet r colMedian = JVal.num (JNum.fin m) := by
    intro r hr hkr
    obtain ⟨r0, _, vals, hvals, rfl⟩ := addMedians_ok_mem _ _ _ hok r hr
    have hname : rowGet r0 colChemName = .str k := by
      rw [← rowGet_rowSet_other r0 colMedian colChemName
        (medianVal (d3Median vals)) (by decide)]
      exact hkr
    rw [hname] at hvals
    have hveq : vals = qs.map (fun q => JVal.num (JNum.fin q)) := by
      have := hvals.symm.trans hdict
      exact Option.some.inj this
    rw [rowGet_rowSet_self, hveq, hd3']
    rfl
  exact ⟨(main r1 h1 hk1).trans (main r2 h2 hk2).symm, main r3 h3 hk3⟩

/-- C1 counterexample: a single negative RF cell accumulates the one log
value NaN for its key.  The claim's median of that odd-count list is its
middle value NaN, but the cleaned row carries undefined (d3.median drops
NaN and returns undefined on an empty remainder), so the claim fails as
stated for datasets with non-finite log values. -/
theorem c1_counterexample :
    cleanData jlogId c1dataNeg = .ok [c1rowNeg]
      ∧ dictFind (cleanDict jlogId c1dataNeg) ("A (ESI+)") = some [JVal.num JNum.nan]
      ∧ rowGet c1rowNeg colChemName = JVal.str ("A (ESI+)")
      ∧ rowGet c1rowNeg colMedian = JVal.undefined
      ∧ JVal.undefined ≠ JVal.num JNum.nan := by
  exact ⟨by decide, by decide, by decide, by decide, by decide⟩

/-- C1 witness: the amended theorem at the worked example's positive-mode
key, whose accumulated values are the finite logs of 10 and 20. -/
theorem c1_witness :
    (cleanData jlogId exampleRows = .ok cleanedExample
        ∧ dictFind (cleanDict jlogId exampleRows) ("A (ESI+)")
          = some ([(10 : ℚ), 20].map (fun q => JVal.num (JNum.fin q)))
        ∧ specMedian [(10 : ℚ), 20] = some 15
        ∧ rowGet (cleanedExample.headD []) colChemName = JVal.str ("A (ESI+)"))
      ∧ (rowGet (cleanedExample.headD []) colMedian
            = rowGet (cleanedExample.headD []) colMedian
        ∧ rowGet (cleanedExample.headD []) colMedian = JVal.num (JNum.fin 15)) := by
  refine ⟨⟨rfl, by decide, ?_, by decide⟩, ?_⟩
  · show specMedian [(10 : ℚ), 20] = some 15
    unfold specMedian
    norm_num [List.insertionSort, List.orderedInsert]
  · refine c1_amended jlogId exampleRows cleanedExample ("A (ESI+)") [10, 20] 15
      (cleanedExample.headD []) (cleanedExample.headD []) (cleanedExample.headD [])
      rfl ?_ ?_ ?_ (by decide) (by decide) (by decide) (by decide) ?_
    · show cleanedExample.headD [] ∈ cleanedExample
      rw [show cleanedExample = (cleanedExample.headD []) :: cleanedExample.tail from rfl]
      exact List.mem_cons_self _ _
    · rw [show cleanedExample = (cleanedExample.headD []) :: cleanedExample.tail from rfl]
      exact List.mem_cons_self _ _
    · rw [show cleanedExample = (cleanedExample.headD []) :: cleanedExample.tail from rfl]
      exact List.mem_cons_self _ _
    · unfold specMedian
      norm_num [List.insertionSort, List.orderedInsert]

/-! ### Claim C2: color assignment by ordinal counter. -/

theorem rowPoints_spec (r : Row) :
    ∀ (es : List (String × JVal)) (c : JVal) (i : Nat),
      (rowPoints r c i es).1.map Point.color
          = (specRowOrdinals (rowGet r colChemName)
              ((es.filter (fun e => strStarts logRfPre e.1)).length) c i).1.map
                (fun j => palette.getD (j % 7) default)
        ∧ (rowPoints r c i es).2
          = (specRowOrdinals (rowGet r colChemName)
              ((es.filter (fun e => strStarts logRfPre e.1)).length) c i).2 := by
  intro es
  induction es with
  | nil => intro c i; exact ⟨rfl, rfl⟩
  | cons e es ih =>
      intro c i
      by_cases hl : strStarts logRfPre e.1 = true
      · rw [rowPoints, if_pos hl]
        have hflt : ((e :: es).filter (fun e => strStarts logRfPre e.1)).length
            = (es.filter (fun e => strStarts logRfPre e.1)).length + 1 := by
          rw [List.filter_cons, if_pos hl]
          rfl
        rw [hflt]
        have hst : (if jvalSeq (rowGet r colChemName) c then (c, i)
              else (rowGet r colChemName, i + 1))
            = specColStep (rowGet r colChemName) c i := rfl
        rw [specRowOrdinals]
        rcases ih (specColStep (rowGet r colChemName) c i).1
            (specColStep (rowGet r colChemName) c i).2 with ⟨ihc, ihs⟩
        constructor
        · simp only [List.map_cons, hst]
          rw [ihc]
        · simp only [hst]
          exact ihs
      · rw [rowPoints, if_neg hl]
        have hflt : ((e :: es).filter (fun e => strStarts logRfPre e.1)).length
            = (es.filter (fun e => strStarts logRfPre e.1)).length := by
          rw [List.filter_cons, if_neg hl]
        rw [hflt]
        exact ih c i

theorem buildPoints_spec (mode : String) :
    ∀ (rows : List Row) (c : JVal) (i : Nat) (pts : List Point) (kept : List Row),
      buildPoints mode c i rows = .ok pts →
      retainedRowsE mode rows = .ok kept →
      pts.map Point.color
        = (specOrdinals c i (kept.map rowSummary)).map
            (fun j => palette.getD (j % 7) default) := by
  intro rows
  induction rows with
  | nil =>
      intro c i pts kept h hk
      rw [buildPoints] at h
      rw [retainedRowsE] at hk
      simp only [Except.ok.injEq] at h hk
      subst h
      subst hk
      rfl
  | cons r rest ih =>
      intro c i pts kept h hk
      rw [buildPoints] at h
      rw [retainedRowsE] at hk
      cases hv : rowSkip mode r with
      | error e => rw [hv] at h; simp at h
      | ok b =>
          rw [hv] at h hk
          cases b with
          | true =>
              simp only at h hk
              exact ih _ _ _ _ h hk
          | false =>
              simp only at h hk
              cases hrec : buildPoints mode (rowPoints r c i r).2.1 (rowPoints r c i r).2.2 rest with
              | error e => rw [hrec] at h; simp at h
              | ok pts' =>
                  cases hkrec : retainedRowsE mode rest with
                  | error e => rw [hkrec] at hk; simp at hk
                  | ok kept' =>
                      rw [hrec] at h
                      rw [hkrec] at hk
                      simp only [Except.ok.injEq] at h hk
                      subst h
                      subst hk
                      rcases rowPoints_spec r r c i with ⟨hcolor, hstate⟩
                      rw [List.map_append, List.map_cons, specOrdinals]
                      dsimp only [rowSummary, logColCount]
                      rw [List.map_append, ← hcolor, ← hstate]
                      congr 1
                      exact ih _ _ _ _ hrec hkrec

/-- C2 amended: the colors the Point Builder assigns are
palette[counter mod 7], but the counter's register is seeded with the
key of the first row of the unfiltered input (read before any
filtering), and only rows that actually emit a point update the
register; the strict-equality check runs at every emitted point.  Hence
when the input's first row is filtered out, the first retained chemical
receives ordinal 1, not 0, and rows with no log RF column never affect
the counter. -/
theorem c2_amended (rows : List Row) (r0 : Row) (rest : List Row) (n : Nat)
    (mode : String) (pts : List Point) (kept : List Row)
    (hrows : rows = r0 :: rest)
    (h : getPointsData rows n mode = .ok pts)
    (hk : retainedRowsE mode rows = .ok kept) :
    pts.map Point.color
      = (specOrdinals (rowGet r0 colChemName) 0 (kept.map rowSummary)).map
          (fun j => palette.getD (j % 7) default) := by
  subst hrows
  unfold getPointsData at h
  exact buildPoints_spec mode _ _ _ _ _ h hk

/-- C2 counterexample: with the positive-mode row first and the filter
set to "-", the only retained chemical is the first retained row's key,
which the claim assigns ordinal 0 and palette[0]; the code seeded its
register from the filtered-out first row, so the emitted point receives
palette[1] instead. -/
theorem c2_counterexample :
    getPointsData c2rows 10 modeMinus = .ok (okPoints (getPointsData c2rows 10 modeMinus))
      ∧ retainedRowsE modeMinus c2rows = .ok (okRetained (retainedRowsE modeMinus c2rows))
      ∧ (okPoints (getPointsData c2rows 10 modeMinus)).map Point.color
          ≠ (claimOrdinals ((okRetained (retainedRowsE modeMinus c2rows)).map rowSummary)).map
              (fun j => palette.getD (j % 7) default) := by
  refine ⟨rfl, rfl, ?_⟩
  intro h
  have h1 : (((okPoints (getPointsData c2rows 10 modeMinus)).map Point.color).headD default).t
      = (((claimOrdinals ((okRetained (retainedRowsE modeMinus c2rows)).map rowSummary)).map
          (fun j => palette.getD (j % 7) default)).headD default).t :=
    congrArg (fun l => (l.headD default).t) h
  have hL : (((okPoints (getPointsData c2rows 10 modeMinus)).map Point.color).headD default).t
      = ((1 : ℕ) : ℚ) / (((4 : ℕ) : ℚ) - 1) := rfl
  have hR : (((claimOrdinals ((okRetained (retainedRowsE modeMinus c2rows)).map rowSummary)).map
          (fun j => palette.getD (j % 7) default)).headD default).t
      = ((0 : ℕ) : ℚ) / (((4 : ℕ) : ℚ) - 1) := rfl
  rw [hL, hR] at h1
  norm_num at h1

/-- C2 witness: the amended theorem at the counterexample input, whose
single retained chemical receives ordinal 1. -/
theorem c2_amended_witness :
    (c2rows = (c2rows.headD []) :: c2rows.tail
        ∧ getPointsData c2rows 10 modeMinus = .ok (okPoints (getPointsData c2rows 10 modeMinus))
        ∧ retainedRowsE modeMinus c2rows = .ok (okRetained (retainedRowsE modeMinus c2rows)))
      ∧ (okPoints (getPointsData c2rows 10 modeMinus)).map Point.color
          = (specOrdinals (rowGet (c2rows.headD []) colChemName) 0
              ((okRetained (retainedRowsE modeMinus c2rows)).map rowSummary)).map
              (fun j => palette.getD (j % 7) default) := by
  exact ⟨⟨rfl, rfl, rfl⟩,
    c2_amended c2rows (c2rows.headD []) c2rows.tail 10 modeMinus _ _ rfl rfl rfl⟩

/-! ### Claim C6: sorting then building points is idempotent as a pair. -/

theorem jnumLe_total (a b : JNum) : jnumLe a b = true ∨ jnumLe b a = true := by
  cases a <;> cases b <;> simp [jnumLe]
  exact le_total _ _

theorem jnumLe_trans (a b c : JNum) (h1 : jnumLe a b = true) (h2 : jnumLe b c = true) :
    jnumLe a c = true := by
  cases a <;> cases b <;> cases c <;> simp_all [jnumLe]
  exact le_trans h1 h2

theorem rowLe_agree (col : String) (a b : Row)
    (ha : (jToNumber (rowGet a col)).isFin = true)
    (hb : (jToNumber (rowGet b col)).isFin = true) :
    rowLeR col a b ↔ rowLeT col a b := by
  unfold rowLeR rowLeB rowCmp rowLeT
  cases hA : jToNumber (rowGet a col) with
  | fin qa =>
      cases hB : jToNumber (rowGet b col) with
      | fin qb =>
          simp only [jsub, jneg, jadd, jnumGt, jnumLe, decide_eq_true_iff, Bool.not_eq_true']
          constructor
          · intro h
            have h' : ¬ 0 < qa + -qb := of_decide_eq_false h
            linarith [le_of_not_lt h']
          · intro h
            rw [decide_eq_false_iff_not]
            intro hq
            linarith
      | nan => rw [hB] at hb; exact absurd hb (by decide)
      | neginf => rw [hB] at hb; exact absurd hb (by decide)
      | posinf => rw [hB] at hb; exact absurd hb (by decide)
  | nan => rw [hA] at ha; exact absurd ha (by decide)
  | neginf => rw [hA] at ha; exact absurd ha (by decide)
  | posinf => rw [hA] at ha; exact absurd ha (by decide)

theorem insertionSort_congr_rel {α : Type} {r s : α → α → Prop}
    [DecidableRel r] [DecidableRel s] (l : List α)
    (h : ∀ a ∈ l, ∀ b ∈ l, r a b ↔ s a b) :
    List.insertionSort r l = List.insertionSort s l := by
  have hm := List.map_insertionSort r s id l (by simpa using h)
  simpa using hm

theorem jsSortRows_idem (col : String) (rows : List Row)
    (hfin : ∀ r ∈ rows, (jToNumber (rowGet r col)).isFin = true) :
    jsSortRows col (jsSortRows col rows) = jsSortRows col rows := by
  have instT : IsTotal Row (rowLeT col) := ⟨fun a b => jnumLe_total _ _⟩
  have instR : IsTrans Row (rowLeT col) := ⟨fun a b c => jnumLe_trans _ _ _⟩
  have hagree : ∀ a ∈ rows, ∀ b ∈ rows, rowLeR col a b ↔ rowLeT col a b :=
    fun a ha b hb => rowLe_agree col a b (hfin a ha) (hfin b hb)
  have h1 : jsSortRows col rows = List.insertionSort (rowLeT col) rows :=
    insertionSort_congr_rel rows hagree
  have hmem : ∀ a ∈ jsSortRows col rows, a ∈ rows := by
    intro a ha
    exact (List.mem_insertionSort _).mp ha
  have hagree2 : ∀ a ∈ jsSortRows col rows, ∀ b ∈ jsSortRows col rows,
      rowLeR col a b ↔ rowLeT col a b :=
    fun a ha b hb => hagree a (hmem a ha) b (hmem b hb)
  have h2 : jsSortRows col (jsSortRows col rows)
      = List.insertionSort (rowLeT col) (jsSortRows col rows) :=
    insertionSort_congr_rel _ hagree2
  rw [h2, h1]
  exact List.Sorted.insertionSort_eq
    (@List.sorted_insertionSort _ (rowLeT col) _ instT instR rows)

theorem sortData_eq (sortedBy : String) (l : List Row) :
    sortData sortedBy l = jsSortRows (sortKeyCol sortedBy) l := by
  unfold sortData sortKeyCol
  by_cases hs : sortedBy = sortKeyRt
  · rw [if_pos hs, if_pos hs]
  · rw [if_neg hs, if_neg hs]

/-- C6: when the active sort key's cells coerce to finite numbers, the
sort step of makeStripPlot is idempotent (the model renders the ES2019
stable sort, which keeps insertion order among ties), and repeating the
same sort and the same point-build on the result yields the identical
point list, every chemical keeping its color. -/
theorem c6_theorem (sortedBy mode : String) (n : Nat) (rows : List Row)
    (hfin : rows.all (fun r => (jToNumber (rowGet r (sortKeyCol sortedBy))).isFin) = true) :
    sortData sortedBy (sortData sortedBy rows) = sortData sortedBy rows
      ∧ stripPlotPoints sortedBy mode n (sortData sortedBy rows)
          = stripPlotPoints sortedBy mode n rows := by
  rw [List.all_eq_true] at hfin
  have hidem : sortData sortedBy (sortData sortedBy rows) = sortData sortedBy rows := by
    rw [sortData_eq, sortData_eq]
    exact jsSortRows_idem _ _ hfin
  refine ⟨hidem, ?_⟩
  unfold stripPlotPoints
  rw [hidem]

/-- C6 witness: the theorem at the cleaned worked example sorted by
retention time with the positive-mode filter. -/
theorem c6_witness :
    cleanedExample.all (fun r => (jToNumber (rowGet r (sortKeyCol sortKeyRt))).isFin) = true
      ∧ (sortData sortKeyRt (sortData sortKeyRt cleanedExample) = sortData sortKeyRt cleanedExample
        ∧ stripPlotPoints sortKeyRt modePlus 10 (sortData sortKeyRt cleanedExample)
            = stripPlotPoints sortKeyRt modePlus 10 cleanedExample) := by
  exact ⟨by decide, c6_theorem sortKeyRt modePlus 10 cleanedExample (by decide)⟩

end StripPlots
